import Mathlib

/-!
Verification of the PPPoE log-classification engine of `tarea.py`.

The Python source is shallowly embedded below.  Python strings are
modelled as lists of characters (`Str`); the regular expressions used by
the source are small enough that their exact search semantics (leftmost
match, greedy or lazy capture, `.` not crossing a newline, optional
case-insensitivity) are modelled directly as recursive functions.
-/

namespace Tarea

/-- Python strings are modelled as lists of characters. -/
abbrev Str := List Char

/-- ASCII lower-casing of one character, modelling `str.lower()` /
`re.IGNORECASE` on the ASCII patterns used by the source. -/
def toLowerAscii (c : Char) : Char :=
  if 'A' ≤ c ∧ c ≤ 'Z' then Char.ofNat (c.toNat + 32) else c

/-- Python's `s.lower()` for ASCII text. -/
def lowerStr (s : Str) : Str := s.map toLowerAscii

/-- Test that `s` begins with `p` (case-sensitive). -/
def strStarts : Str → Str → Bool
  | _, [] => true
  | [], _ :: _ => false
  | c :: s, d :: p => if c = d then strStarts s p else false

/-- Python's substring test `p in s` (case-sensitive). -/
def strContains : Str → Str → Bool
  | [], p => strStarts [] p
  | c :: s, p => strStarts (c :: s) p || strContains s p

/-- Test that `s` begins with `p`, comparing characters case-insensitively. -/
def startsCI : Str → Str → Bool
  | _, [] => true
  | [], _ :: _ => false
  | c :: s, d :: p => if toLowerAscii c = toLowerAscii d then startsCI s p else false

/-- Case-insensitive substring test. -/
def containsCI : Str → Str → Bool
  | [], p => startsCI [] p
  | c :: s, p => startsCI (c :: s) p || containsCI s p

/-- The suffix of a regex of shape `(.*)B` matched against `s`, greedily:
the capture extends to the last occurrence of `B` in `s` that is not
separated from the start by a newline (`.` does not match `\n`).
Returns the captured text. -/
def greedyCapCI (B : Str) : Str → Option Str
  | [] => if startsCI [] B then some [] else none
  | c :: s =>
    if c = '\n' then
      if startsCI (c :: s) B then some [] else none
    else
      match greedyCapCI B s with
      | some u => some (c :: u)
      | none => if startsCI (c :: s) B then some [] else none

/-- Model of `re.search` of the pattern `A(.*)B` (both literals, `re.IGNORECASE`)
against `m`: the leftmost start at which the literal `A` matches and a
matching `B` is reachable wins, and the capture is greedy.  Returns the
text of the capture group (taken from the original string, as Python
does under `IGNORECASE`). -/
def searchCI (A B : Str) : Str → Option Str
  | [] => if startsCI [] A then greedyCapCI B [] else none
  | c :: s =>
    if startsCI (c :: s) A then
      match greedyCapCI B (List.drop A.length (c :: s)) with
      | some u => some u
      | none => searchCI A B s
    else searchCI A B s

/-- ASCII digit test. -/
def isDig (c : Char) : Bool := '0' ≤ c ∧ c ≤ '9'

/-- One `\d{1,3}\.` group of the IP pattern, matched at the start of `s`:
the run of leading digits must have length 1..3 and be followed by a
dot.  Returns the consumed text and the rest. -/
def grpDot (s : Str) : Option (Str × Str) :=
  let r := s.takeWhile isDig
  if 1 ≤ r.length ∧ r.length ≤ 3 then
    match List.drop r.length s with
    | '.' :: rest => some (r ++ ['.'], rest)
    | _ => none
  else none

/-- The final `\d{1,3}` group: at least one leading digit, greedily up
to three. -/
def lastGrp (s : Str) : Option Str :=
  let r := s.takeWhile isDig
  if 1 ≤ r.length then some (List.take 3 r) else none

/-- The pattern `\d{1,3}\.\d{1,3}\.\d{1,3}\.\d{1,3}` matched at the
start of `s`. -/
def matchIpAt (s : Str) : Option Str :=
  match grpDot s with
  | none => none
  | some (g1, s1) =>
    match grpDot s1 with
    | none => none
    | some (g2, s2) =>
      match grpDot s2 with
      | none => none
      | some (g3, s3) =>
        match lastGrp s3 with
        | none => none
        | some g4 => some (g1 ++ g2 ++ g3 ++ g4)

/-- Model of `re.search` of the IPv4-looking pattern: leftmost match wins. -/
def searchIp : Str → Option Str
  | [] => none
  | c :: s =>
    match matchIpAt (c :: s) with
    | some ip => some ip
    | none => searchIp s

/-- The `ip` field of a disconnection record: the first IPv4-looking
substring of the message, else `"N/A"` (line 122 of the source). -/
def ipOf (m : Str) : Str :=
  match searchIp m with
  | some ip => ip
  | none => String.toList "N/A"

/-- Python whitespace, as stripped by `str.strip()`. -/
def isPySpace (c : Char) : Bool :=
  c = ' ' || c = '\t' || c = '\n' || c = '\r' || c = '\x0b' || c = '\x0c'

/-- Python's `str.strip()`. -/
def strip (s : Str) : Str :=
  List.reverse (List.dropWhile isPySpace (List.reverse (List.dropWhile isPySpace s)))

/-- A raw MikroTik log entry: the `time`, `message` and `topics` keys of
the dictionary may each be absent. -/
structure LogEntry where
  time : Option Str
  message : Option Str
  topics : Option Str
deriving DecidableEq

/-- One legacy disconnection record, with the field names used by the
source dictionary (lines 124-130). -/
structure DisconnectionRecord where
  nombre : Str
  ip : Str
  tiempo_desconexion : Str
  mensaje : Str
  topics : Str
deriving DecidableEq

/-- The kind of a tag-path connection event.  The source uses the
strings `CONEXIÓN`, `DESCONEXIÓN` and `RECONEXIÓN RÁPIDA`. -/
inductive EventKind
  | CONNECT
  | DISCONNECT
  | RAPID_RECONNECT
deriving DecidableEq

/-- One tag-path connection event (lines 238-243 of the source). -/
structure ConnectionEvent where
  hora : Str
  cliente : Str
  evento : EventKind
  mensaje : Str
deriving DecidableEq

/-- The five legacy disconnect patterns (lines 83-89 of the source), as
pairs of the literal text before and after the `(.*)` capture group. -/
def pppoe_patterns : List (Str × Str) :=
  [ (String.toList "pppoe ", String.toList " disconnected"),
    (String.toList "PPPoE connection closed for user ", []),
    (String.toList "user ", String.toList " disconnected"),
    (String.toList "removed pppoe client ", []),
    (String.toList "PPP user ", String.toList " closed") ]

/-- The keywords of the PPPoE-relevance prefilter (line 106). -/
def pppTerms : List Str :=
  [String.toList "pppoe", String.toList "ppp", String.toList "disconnected",
   String.toList "closed", String.toList "terminating..."]

/-- Lines 101-109: a log is PPPoE-relevant when its topics contain
`pppoe` or `ppp`, or its lower-cased message contains one of the
keywords. -/
def isPppoeLog (m topics : Str) : Bool :=
  if strContains topics (String.toList "pppoe") || strContains topics (String.toList "ppp") then
    true
  else
    pppTerms.any (fun term => strContains (lowerStr m) term)

/-- Lines 115-131: try the patterns in order; the first match wins and
its capture is stripped of surrounding whitespace. -/
def tryPatterns : List (Str × Str) → Str → Option Str
  | [], _ => none
  | p :: rest, m =>
    match searchCI p.1 p.2 m with
    | some u => some (strip u)
    | none => tryPatterns rest m

/-- The per-entry body of `filter_pppoe_disconnections`: zero or one
record per raw log line. -/
def filterStep (e : LogEntry) : Option DisconnectionRecord :=
  match e.time, e.message with
  | some t, some m =>
    if isPppoeLog m (e.topics.getD []) then
      match tryPatterns pppoe_patterns m with
      | some name => some ⟨name, ipOf m, t, m, e.topics.getD []⟩
      | none => none
    else none
  | _, _ => none

/-- The function `filter_pppoe_disconnections` (lines 81-133). -/
def filter_pppoe_disconnections (logs : List LogEntry) : List DisconnectionRecord :=
  logs.filterMap filterStep

/-- The lazy part `(.*?)>` of the tag regex at the start of `s`: the
capture runs to the first `>`; it fails at a newline or the end. -/
def takeToGt : Str → Option Str
  | [] => none
  | c :: s =>
    if c = '>' then some []
    else if c = '\n' then none
    else
      match takeToGt s with
      | some u => some (c :: u)
      | none => none

/-- Model of the search at line 223 of the source: leftmost start at
which the literal `<pppoe-` matches and a `>` is reachable. -/
def tagCapture : Str → Option Str
  | [] => none
  | c :: s =>
    if strStarts (c :: s) (String.toList "<pppoe-") then
      match takeToGt (List.drop 7 (c :: s)) with
      | some u => some u
      | none => tagCapture s
    else tagCapture s

/-- Line 231: the disconnect keywords of the tag path (case-sensitive). -/
def hasDiscKw (m : Str) : Bool :=
  strContains m (String.toList "terminating") || strContains m (String.toList "disconnected")

/-- Line 233: the connect keyword of the tag path (case-sensitive). -/
def hasConnKw (m : Str) : Bool := strContains m (String.toList "connected")

/-- Lines 221-234: the per-entry tag classification, yielding the
captured client name and the event kind, or nothing. -/
def classifyTag (m : Str) : Option (Str × EventKind) :=
  match tagCapture m with
  | none => none
  | some u =>
    if hasDiscKw m then some (u, EventKind.DISCONNECT)
    else if hasConnKw m then some (u, EventKind.CONNECT)
    else none

/-- The fixed message of a synthetic rapid-reconnection event
(line 257 of the source). -/
def rapidMessage : Str :=
  String.toList "Reconexión detectada después de una desconexión"

/-- The `client_status` dictionary: client name to (last event, last
time), in insertion order. -/
abbrev ClientStatus := List (Str × (EventKind × Str))

/-- Dictionary lookup. -/
def lookupStatus : ClientStatus → Str → Option (EventKind × Str)
  | [], _ => none
  | (k, v) :: t, u => if k = u then some v else lookupStatus t u

/-- Dictionary assignment: replaces the first binding of the key, or
appends a new one. -/
def updateStatus : ClientStatus → Str → (EventKind × Str) → ClientStatus
  | [], u, v => [(u, v)]
  | (k, w) :: t, u, v => if k = u then (u, v) :: t else (k, w) :: updateStatus t u v

/-- One iteration of the loop of `extract_pppoe_connection_events`
(lines 213-260): the updated `client_status` and the (zero, one or two)
events appended for this entry. -/
def extractStep (st : ClientStatus) (e : LogEntry) : ClientStatus × List ConnectionEvent :=
  match e.time, e.message with
  | some t, some m =>
    match classifyTag m with
    | some (u, k) =>
      match lookupStatus st u with
      | none => (updateStatus st u (k, t), [⟨t, u, k, m⟩])
      | some prev =>
        if k = EventKind.CONNECT ∧ prev.1 = EventKind.DISCONNECT then
          (updateStatus st u (k, t),
            [⟨t, u, k, m⟩, ⟨t, u, EventKind.RAPID_RECONNECT, rapidMessage⟩])
        else
          (updateStatus st u (k, t), [⟨t, u, k, m⟩])
    | none => (st, [])
  | _, _ => (st, [])

/-- The loop of `extract_pppoe_connection_events`, threading the
`client_status` state. -/
def extractGo (st : ClientStatus) : List LogEntry → List ConnectionEvent
  | [] => []
  | e :: rest => (extractStep st e).2 ++ extractGo (extractStep st e).1 rest

/-- The function `extract_pppoe_connection_events` (lines 207-262). -/
def extract_pppoe_connection_events (logs : List LogEntry) : List ConnectionEvent :=
  extractGo [] logs

/-- The outcome of polling the router for logs: a list of entries, or an
unreachable device (connection failure or exception, lines 61-76). -/
inductive FetchResult
  | ok (logs : List LogEntry)
  | unreachable

/-- The function `get_mikrotik_logs` (lines 61-76): on success the log list is
truncated to `time_minutes * 10` entries; on failure it is empty. -/
def get_mikrotik_logs (r : FetchResult) (time_minutes : Nat) : List LogEntry :=
  match r with
  | .ok logs => logs.take (time_minutes * 10)
  | .unreachable => []

/-- The header row written to a fresh durable log file (line 165). -/
def headerRow : List Str :=
  [String.toList "Timestamp", String.toList "Cliente", String.toList "IP",
   String.toList "Mensaje"]

/-- One CSV row of the durable log (lines 169-174), for a record whose
fields are all present. -/
def csvRow (d : DisconnectionRecord) : List Str :=
  [d.tiempo_desconexion, d.nombre, d.ip, d.mensaje]

/-- The function `save_disconnections_to_log` (lines 154-174): the durable file is
`none` when absent; appending creates it with a header row. -/
def save_disconnections_to_log (file : Option (List (List Str)))
    (ds : List DisconnectionRecord) : Option (List (List Str)) :=
  if ds = [] then file
  else
    match file with
    | none => some (headerRow :: ds.map csvRow)
    | some rows => some (rows ++ ds.map csvRow)

/-- The function `find_recent_disconnections` (lines 136-151), with the durable file
passed and returned explicitly. -/
def find_recent_disconnections (r : FetchResult) (file : Option (List (List Str)))
    (time_minutes : Nat) :
    (List DisconnectionRecord × List ConnectionEvent) × Option (List (List Str)) :=
  let logs := get_mikrotik_logs r time_minutes
  if logs = [] then (([], []), file)
  else
    ((filter_pppoe_disconnections logs, extract_pppoe_connection_events logs),
      save_disconnections_to_log file (filter_pppoe_disconnections logs))

/-- The payload stored per active client (lines 48-53). -/
structure ActiveInfo where
  ip : Str
  uptime : Str
  caller_id : Str
  service : Str
deriving DecidableEq

/-- The active-session reconciliation of `main` (lines 392-423): given
the fetched active-client dictionary (as an association list in
iteration order) and the `previous_disconnections` set, returns the
reported reconnected clients and the new contents of the set.  When the
active dictionary is empty (falsy) the source only shows a warning: no
reconnections are reported and the set is not cleared. -/
def view_active_clients (active : List (Str × ActiveInfo)) (recent : List Str) :
    List Str × List Str :=
  if active = [] then ([], recent)
  else ((active.map Prod.fst).filter (fun n => decide (n ∈ recent)), [])

/-- Variant of `filterStep` with the PPPoE-relevance prefilter removed,
stated from the words of claim C10 for the refinement comparison. -/
def filterStepUnfiltered (e : LogEntry) : Option DisconnectionRecord :=
  match e.time, e.message with
  | some t, some m =>
    match tryPatterns pppoe_patterns m with
    | some name => some ⟨name, ipOf m, t, m, e.topics.getD []⟩
    | none => none
  | _, _ => none

/-- The legacy pass without the prefilter (claim C10). -/
def filter_pppoe_disconnections_unfiltered (logs : List LogEntry) : List DisconnectionRecord :=
  logs.filterMap filterStepUnfiltered

/-- The state of `client_status` after processing a list of entries. -/
def statAfter (st : ClientStatus) (l : List LogEntry) : ClientStatus :=
  l.foldl (fun s e => (extractStep s e).1) st

/-- One step of reconstructing a client's recorded state from the event
list: a CONNECT or DISCONNECT event for the client overwrites the
state; synthetic RAPID_RECONNECT events are never recorded. -/
def stepState (c : Str) (acc : Option (EventKind × Str)) (ev : ConnectionEvent) :
    Option (EventKind × Str) :=
  if ev.cliente = c ∧ ev.evento ≠ EventKind.RAPID_RECONNECT then some (ev.evento, ev.hora)
  else acc

/-- The most recently recorded (event, time) state of client `c` after
the events `evs`, starting from `init`: the last CONNECT or DISCONNECT
event for `c` wins. -/
def lastStateFrom (init : Option (EventKind × Str)) (c : Str)
    (evs : List ConnectionEvent) : Option (EventKind × Str) :=
  evs.foldl (stepState c) init

/-- A connection event with its time field erased. -/
def eraseTime (ev : ConnectionEvent) : Str × EventKind × Str :=
  (ev.cliente, ev.evento, ev.mensaje)

/-- The client state with its stored times erased. -/
def stateKinds (st : ClientStatus) : List (Str × EventKind) :=
  st.map (fun p => (p.1, p.2.1))

/-- Two input sequences are identical except for the values of their
time fields: same length, and entrywise the messages and topics agree
and the time field is present in one iff it is present in the other. -/
def sameModuloTimes : List LogEntry → List LogEntry → Bool
  | [], [] => true
  | e :: t, f :: t2 =>
    decide (e.message = f.message) && decide (e.topics = f.topics) &&
      decide (e.time.isSome = f.time.isSome) && sameModuloTimes t t2
  | _, _ => false

/-! Concrete sample data used by the concrete test claims and by the
witnesses. -/

def msgCarolTerm : Str := String.toList "<pppoe-carol>: terminating - hung up"

def msgCarolConn : Str := String.toList "<pppoe-carol>: connected"

def msgDanConn : Str := String.toList "<pppoe-dan> connected"

def entCarolTerm : LogEntry := ⟨some (String.toList "10:00"), some msgCarolTerm, some []⟩

def entCarolConn : LogEntry := ⟨some (String.toList "10:01"), some msgCarolConn, some []⟩

def entDanConn : LogEntry := ⟨some (String.toList "11:00"), some msgDanConn, some []⟩

def msgAlice : Str := String.toList "user alice disconnected from 10.0.0.5"

def msgBob : Str := String.toList "pppoe bob disconnected"

def entAlice : LogEntry := ⟨some (String.toList "t1"), some msgAlice, some []⟩

def entBob : LogEntry := ⟨some (String.toList "t2"), some msgBob, some []⟩

def aliceRecord : DisconnectionRecord :=
  ⟨String.toList "alice", String.toList "10.0.0.5", String.toList "t1", msgAlice, []⟩

def bobRecord : DisconnectionRecord :=
  ⟨String.toList "bob", String.toList "N/A", String.toList "t2", msgBob, []⟩

def entCarolTermLate : LogEntry := ⟨some (String.toList "23:58"), some msgCarolTerm, some []⟩

def entCarolConnLate : LogEntry := ⟨some (String.toList "23:59"), some msgCarolConn, some []⟩

def emptyInfo : ActiveInfo := ⟨[], [], [], []⟩

def activeXY : List (Str × ActiveInfo) :=
  [(String.toList "x", emptyInfo), (String.toList "y", emptyInfo)]

def recentXZ : List Str := [String.toList "x", String.toList "z"]

/-! Theorems. -/

/-- Claim C3: on the two-entry sequence (carol terminating, then carol
connected) the tag path yields exactly DISCONNECT, CONNECT and
RAPID_RECONNECT for carol, in that order; and on the single-entry
sequence (dan connected) with no prior state it yields exactly one
CONNECT event for dan, with no reconnection marker. -/
theorem c3_tag_path_examples :
    extract_pppoe_connection_events [entCarolTerm, entCarolConn] =
      [⟨String.toList "10:00", String.toList "carol", EventKind.DISCONNECT, msgCarolTerm⟩,
       ⟨String.toList "10:01", String.toList "carol", EventKind.CONNECT, msgCarolConn⟩,
       ⟨String.toList "10:01", String.toList "carol", EventKind.RAPID_RECONNECT, rapidMessage⟩] ∧
    extract_pppoe_connection_events [entDanConn] =
      [⟨String.toList "11:00", String.toList "dan", EventKind.CONNECT, msgDanConn⟩] := by
  constructor <;> decide

/-- Claim C7: when the log fetch yields an empty sequence, the
classification pass returns two empty lists, and the durable
disconnection log is left untouched. -/
theorem c7_unreachable_source (r : FetchResult) (file : Option (List (List Str)))
    (tm : Nat) (h : get_mikrotik_logs r tm = []) :
    find_recent_disconnections r file tm = (([], []), file) := by
  simp [find_recent_disconnections, h]

/-- Witness for C7 at a concrete unreachable fetch. -/
theorem c7_unreachable_source_witness :
    get_mikrotik_logs FetchResult.unreachable 15 = [] ∧
    find_recent_disconnections FetchResult.unreachable none 15 = (([], []), none) :=
  ⟨rfl, c7_unreachable_source FetchResult.unreachable none 15 rfl⟩

/-- Claim C2 is false as stated: with an empty active-client set the
source takes the warning branch and does not clear the
recently-disconnected set, so after the operation the set is not empty. -/
theorem c2_reconcile_counterexample :
    (view_active_clients [] [String.toList "z"]).2 ≠ [] := by
  decide

/-- Claim C2, amended: when the active set is nonempty the reported
reconnected clients are exactly the active names that are in the
recently-disconnected set and the set is cleared; when the active set
is empty nothing is reported and the set is left unchanged.  The
concrete spec example with active {x, y} and recently-disconnected
{x, z} reports exactly {x}. -/
theorem c2_reconcile_amended (active : List (Str × ActiveInfo)) (recent : List Str)
    (h : active ≠ []) :
    (view_active_clients active recent).2 = [] ∧
    (∀ n, n ∈ (view_active_clients active recent).1 ↔
      n ∈ active.map Prod.fst ∧ n ∈ recent) ∧
    (∀ recent2, view_active_clients [] recent2 = ([], recent2)) ∧
    view_active_clients activeXY recentXZ = ([String.toList "x"], []) := by
  refine ⟨?_, ?_, ?_, ?_⟩
  · unfold view_active_clients
    rw [if_neg h]
  · intro n
    unfold view_active_clients
    rw [if_neg h]
    constructor
    · intro hx
      rcases List.mem_filter.mp hx with ⟨h1, h2⟩
      exact ⟨h1, of_decide_eq_true h2⟩
    · intro hx
      exact List.mem_filter.mpr ⟨hx.1, decide_eq_true hx.2⟩
  · intro recent2
    unfold view_active_clients
    rw [if_pos rfl]
  · decide

/-- Witness for the amended C2 at the concrete spec example. -/
theorem c2_reconcile_amended_witness :
    (view_active_clients activeXY recentXZ).2 = [] ∧
    view_active_clients activeXY recentXZ = ([String.toList "x"], []) :=
  ⟨(c2_reconcile_amended activeXY recentXZ (by decide)).1,
   (c2_reconcile_amended activeXY recentXZ (by decide)).2.2.2⟩

/-- Claim C6: whenever the legacy pass produces a record for an entry,
the record's `ip` is the first IPv4-looking substring of the message
(else `N/A`); the alice message yields exactly `10.0.0.5` and the bob
message with empty topic yields exactly one record with ip `N/A`. -/
theorem c6_ip_extraction (e : LogEntry) (t m : Str) (r : DisconnectionRecord)
    (ht : e.time = some t) (hm : e.message = some m)
    (hr : filterStep e = some r) :
    r.ip = ipOf m ∧
    filter_pppoe_disconnections [entAlice] = [aliceRecord] ∧
    filter_pppoe_disconnections [entBob] = [bobRecord] := by
  refine ⟨?_, by decide, by decide⟩
  rcases e with ⟨et, em, etop⟩
  simp only at ht hm
  subst ht
  subst hm
  simp only [filterStep] at hr
  by_cases h1 : isPppoeLog m (Option.getD etop []) = true
  · rw [if_pos h1] at hr
    rcases h2 : tryPatterns pppoe_patterns m with _ | name
    · rw [h2] at hr
      exact Option.noConfusion hr
    · rw [h2] at hr
      injection hr with h3
      rw [← h3]
  · rw [if_neg h1] at hr
    exact Option.noConfusion hr

/-- Witness for C6 at the concrete alice entry. -/
theorem c6_ip_extraction_witness :
    aliceRecord.ip = ipOf msgAlice ∧
    filter_pppoe_disconnections [entAlice] = [aliceRecord] ∧
    filter_pppoe_disconnections [entBob] = [bobRecord] :=
  c6_ip_extraction entAlice (String.toList "t1") msgAlice aliceRecord rfl rfl (by decide)

/-- An entry missing its time or its message field yields no legacy
record. -/
lemma filterStep_malformed (e : LogEntry) (h : e.time = none ∨ e.message = none) :
    filterStep e = none := by
  rcases e with ⟨et, em, etop⟩
  rcases et with _ | t
  · rcases em with _ | m <;> rfl
  · rcases em with _ | m
    · rfl
    · simp only at h
      rcases h with h | h <;> exact Option.noConfusion h

/-- An entry missing its time or its message field yields no tag event
and leaves the client state unchanged. -/
lemma extractStep_malformed (st : ClientStatus) (e : LogEntry)
    (h : e.time = none ∨ e.message = none) :
    extractStep st e = (st, []) := by
  rcases e with ⟨et, em, etop⟩
  rcases et with _ | t
  · rcases em with _ | m <;> rfl
  · rcases em with _ | m
    · rfl
    · simp only at h
      rcases h with h | h <;> exact Option.noConfusion h

lemma extractGo_cons (st : ClientStatus) (e : LogEntry) (rest : List LogEntry) :
    extractGo st (e :: rest) = (extractStep st e).2 ++ extractGo (extractStep st e).1 rest :=
  rfl

lemma extractGo_append (l1 l2 : List LogEntry) :
    ∀ st, extractGo st (l1 ++ l2) = extractGo st l1 ++ extractGo (statAfter st l1) l2 := by
  induction l1 with
  | nil => intro st; rfl
  | cons e rest ih =>
    intro st
    rw [List.cons_append, extractGo_cons, extractGo_cons, ih, List.append_assoc]
    rfl

/-- Claim C8: an entry missing its time field or its message field is
silently excluded from both output lists, without affecting the other
entries. -/
theorem c8_malformed_entries_skipped (l1 l2 : List LogEntry) (e : LogEntry)
    (h : e.time = none ∨ e.message = none) :
    filter_pppoe_disconnections (l1 ++ e :: l2) = filter_pppoe_disconnections (l1 ++ l2) ∧
    extract_pppoe_connection_events (l1 ++ e :: l2) =
      extract_pppoe_connection_events (l1 ++ l2) := by
  constructor
  · simp [filter_pppoe_disconnections, List.filterMap_append, List.filterMap_cons,
      filterStep_malformed e h]
  · unfold extract_pppoe_connection_events
    rw [extractGo_append, extractGo_append]
    congr 1
    rw [extractGo_cons, extractStep_malformed (statAfter [] l1) e h]
    rfl

/-- Witness for C8: a timeless entry dropped from the middle of the
carol sequence leaves both outputs unchanged. -/
theorem c8_malformed_entries_skipped_witness :
    filter_pppoe_disconnections ([entCarolTerm] ++ ⟨none, some msgDanConn, none⟩ :: [entCarolConn]) =
      filter_pppoe_disconnections ([entCarolTerm] ++ [entCarolConn]) ∧
    extract_pppoe_connection_events ([entCarolTerm] ++ ⟨none, some msgDanConn, none⟩ :: [entCarolConn]) =
      extract_pppoe_connection_events ([entCarolTerm] ++ [entCarolConn]) :=
  c8_malformed_entries_skipped [entCarolTerm] [entCarolConn] ⟨none, some msgDanConn, none⟩
    (Or.inl rfl)

/-- Claim C4: for a well-formed entry whose message contains `<pppoe-`,
the tag pass skips it entirely when the tag has no closing `>`; when
the capture is `u`, the emitted event carries client `u` and kind
DISCONNECT when a disconnect keyword is present (taking priority),
CONNECT when only the connect keyword is present, and no event is
emitted when neither keyword occurs. -/
theorem c4_tag_entry_classification (st : ClientStatus) (e : LogEntry) (t m : Str)
    (ht : e.time = some t) (hm : e.message = some m)
    (hpp : strContains m (String.toList "<pppoe-") = true) :
    (tagCapture m = none → extractStep st e = (st, [])) ∧
    (∀ u, tagCapture m = some u →
      (hasDiscKw m = true →
        (extractStep st e).2.head? = some ⟨t, u, EventKind.DISCONNECT, m⟩) ∧
      (hasDiscKw m = false → hasConnKw m = true →
        (extractStep st e).2.head? = some ⟨t, u, EventKind.CONNECT, m⟩) ∧
      (hasDiscKw m = false → hasConnKw m = false → extractStep st e = (st, []))) := by
  rcases e with ⟨et, em, etop⟩
  simp only at ht hm
  subst ht
  subst hm
  constructor
  · intro h0
    have hc : classifyTag m = none := by simp [classifyTag, h0]
    simp [extractStep, hc]
  · intro u hu
    refine ⟨?_, ?_, ?_⟩
    · intro hd
      have hc : classifyTag m = some (u, EventKind.DISCONNECT) := by
        simp [classifyTag, hu, hd]
      rcases hl : lookupStatus st u with _ | prev
      · simp [extractStep, hc, hl]
      · simp only [extractStep, hc, hl]
        rw [if_neg]
        · rfl
        · rintro ⟨h1, _⟩
          exact EventKind.noConfusion h1
    · intro hd hcn
      have hc : classifyTag m = some (u, EventKind.CONNECT) := by
        simp [classifyTag, hu, hd, hcn]
      rcases hl : lookupStatus st u with _ | prev
      · simp [extractStep, hc, hl]
      · simp only [extractStep, hc, hl]
        split <;> rfl
    · intro hd hcn
      have hc : classifyTag m = none := by simp [classifyTag, hu, hd, hcn]
      simp [extractStep, hc]

/-- Witness for C4 at a concrete message carrying both the tag capture
and a disconnect keyword. -/
theorem c4_tag_entry_classification_witness :
    (extractStep [] entCarolTerm).2.head? =
      some ⟨String.toList "10:00", String.toList "carol", EventKind.DISCONNECT, msgCarolTerm⟩ :=
  ((c4_tag_entry_classification [] entCarolTerm (String.toList "10:00") msgCarolTerm rfl rfl
    (by decide)).2 (String.toList "carol") (by decide)).1 (by decide)

/-- The function `tryPatterns` returns the stripped capture of the first matching
pattern. -/
lemma tryPatterns_first (ps : List (Str × Str)) (m : Str) :
    ∀ i (hi : i < ps.length) u,
      searchCI (ps.get ⟨i, hi⟩).1 (ps.get ⟨i, hi⟩).2 m = some u →
      (∀ j (hj : j < i), searchCI (ps.get ⟨j, Nat.lt_trans hj hi⟩).1
        (ps.get ⟨j, Nat.lt_trans hj hi⟩).2 m = none) →
      tryPatterns ps m = some (strip u) := by
  induction ps with
  | nil =>
    intro i hi
    exact absurd hi (by simp)
  | cons p rest ih =>
    intro i hi u hmatch hfirst
    cases i with
    | zero =>
      simp only [List.get] at hmatch
      unfold tryPatterns
      rw [hmatch]
    | succ i2 =>
      have h0 : searchCI p.1 p.2 m = none := by
        have := hfirst 0 (Nat.succ_pos i2)
        simpa using this
      have hrest : tryPatterns rest m = some (strip u) := by
        refine ih i2 (Nat.lt_of_succ_lt_succ hi) u ?_ ?_
        · simpa using hmatch
        · intro j hj
          have := hfirst (j + 1) (Nat.succ_lt_succ hj)
          simpa using this
      unfold tryPatterns
      rw [h0, hrest]

/-- Claim C5: a PPPoE-relevant well-formed entry whose message first
matches pattern `i` (all earlier patterns failing) yields exactly the
record with the stripped capture of pattern `i`; and every raw line
contributes at most one record. -/
theorem c5_legacy_first_match (e : LogEntry) (t m topics : Str) (i : Nat)
    (hi : i < pppoe_patterns.length) (u : Str)
    (ht : e.time = some t) (hm : e.message = some m)
    (htop : e.topics.getD [] = topics)
    (hrel : isPppoeLog m topics = true)
    (hmatch : searchCI (pppoe_patterns.get ⟨i, hi⟩).1 (pppoe_patterns.get ⟨i, hi⟩).2 m = some u)
    (hfirst : ∀ j (hj : j < i), searchCI (pppoe_patterns.get ⟨j, Nat.lt_trans hj hi⟩).1
      (pppoe_patterns.get ⟨j, Nat.lt_trans hj hi⟩).2 m = none) :
    filterStep e = some ⟨strip u, ipOf m, t, m, topics⟩ ∧
    ∀ logs, (filter_pppoe_disconnections logs).length ≤ logs.length := by
  have htry := tryPatterns_first pppoe_patterns m i hi u hmatch hfirst
  constructor
  · rcases e with ⟨et, em, etop⟩
    simp only at ht hm htop
    subst ht
    subst hm
    subst htop
    simp [filterStep, hrel, htry]
  · intro logs
    exact List.length_filterMap_le _ _

/-- Witness for C5: the alice message first matches the third pattern
(index 2), the two earlier patterns failing. -/
theorem c5_legacy_first_match_witness :
    filterStep entAlice =
      some ⟨strip (String.toList "alice"), ipOf msgAlice, String.toList "t1", msgAlice, []⟩ :=
  (c5_legacy_first_match entAlice (String.toList "t1") msgAlice [] 2 (by decide)
    (String.toList "alice") rfl rfl rfl (by decide) (by decide) (by decide)).1

/-- The tag classifier only yields CONNECT or DISCONNECT. -/
lemma classifyTag_not_rapid (m u : Str) (k : EventKind)
    (h : classifyTag m = some (u, k)) : k ≠ EventKind.RAPID_RECONNECT := by
  unfold classifyTag at h
  rcases h0 : tagCapture m with _ | u2
  · rw [h0] at h
    exact Option.noConfusion h
  · simp only [h0] at h
    by_cases hd : hasDiscKw m = true
    · rw [if_pos hd] at h
      injection h with h2
      injection h2 with h3 h4
      rw [← h4]
      exact fun hcon => EventKind.noConfusion hcon
    · rw [if_neg hd] at h
      by_cases hc : hasConnKw m = true
      · rw [if_pos hc] at h
        injection h with h2
        injection h2 with h3 h4
        rw [← h4]
        exact fun hcon => EventKind.noConfusion hcon
      · rw [if_neg hc] at h
        exact Option.noConfusion h

/-- Dictionary lookup after assignment. -/
lemma lookup_update (st : ClientStatus) (u c : Str) (v : EventKind × Str) :
    lookupStatus (updateStatus st u v) c = if u = c then some v else lookupStatus st c := by
  induction st with
  | nil =>
    by_cases h2 : u = c <;> simp [updateStatus, lookupStatus, h2]
  | cons p t ih =>
    rcases p with ⟨k, w⟩
    by_cases h1 : k = u
    · subst h1
      by_cases h2 : k = c <;> simp [updateStatus, lookupStatus, h2]
    · by_cases h3 : k = c
      · have h4 : ¬c = u := fun hcu => h1 (h3.symm ▸ hcu)
        have h2 : ¬u = c := fun hu => h4 hu.symm
        simp [updateStatus, lookupStatus, h1, h3, h4, h2]
      · by_cases h2 : u = c
        · subst h2
          simp [updateStatus, lookupStatus, h1, h3, ih]
        · simp [updateStatus, lookupStatus, h1, h3, h2, ih]

/-- Folding a recorded (non-rapid) event into the reconstructed state
agrees with the dictionary after the corresponding assignment. -/
lemma stepState_update (st : ClientStatus) (u c : Str) (k : EventKind) (t m : Str)
    (hk : k ≠ EventKind.RAPID_RECONNECT) :
    stepState c (lookupStatus st c) ⟨t, u, k, m⟩ = lookupStatus (updateStatus st u (k, t)) c := by
  unfold stepState
  rw [lookup_update]
  by_cases h : u = c
  · simp [h, hk]
  · simp [h]

/-- Synthetic rapid-reconnection events do not change the reconstructed
state. -/
lemma stepState_rapid (c : Str) (acc : Option (EventKind × Str)) (t u : Str) :
    stepState c acc ⟨t, u, EventKind.RAPID_RECONNECT, rapidMessage⟩ = acc := by
  simp [stepState]

/-- The three possible outcomes of one loop iteration of the tag pass:
no event, one recorded event, or a CONNECT followed by a synthetic
rapid-reconnection (exactly when the client's recorded state was a
DISCONNECT). -/
lemma extractStep_shape (st : ClientStatus) (e : LogEntry) :
    extractStep st e = (st, []) ∨
    (∃ t m u k, classifyTag m = some (u, k) ∧
      extractStep st e = (updateStatus st u (k, t), [⟨t, u, k, m⟩])) ∨
    (∃ t m u t2, classifyTag m = some (u, EventKind.CONNECT) ∧
      lookupStatus st u = some (EventKind.DISCONNECT, t2) ∧
      extractStep st e = (updateStatus st u (EventKind.CONNECT, t),
        [⟨t, u, EventKind.CONNECT, m⟩, ⟨t, u, EventKind.RAPID_RECONNECT, rapidMessage⟩])) := by
  rcases e with ⟨et, em, etop⟩
  rcases et with _ | t
  · left
    rcases em with _ | m <;> rfl
  · rcases em with _ | m
    · left
      rfl
    · rcases hc : classifyTag m with _ | p
      · left
        simp [extractStep, hc]
      · rcases p with ⟨u, k⟩
        rcases hl : lookupStatus st u with _ | prev
        · right
          left
          exact ⟨t, m, u, k, hc, by simp [extractStep, hc, hl]⟩
        · by_cases hcond : k = EventKind.CONNECT ∧ prev.1 = EventKind.DISCONNECT
          · right
            right
            rcases prev with ⟨pk, pt⟩
            rcases hcond with ⟨hk, hpk⟩
            subst hk
            simp only at hpk
            subst hpk
            refine ⟨t, m, u, pt, hc, hl, ?_⟩
            simp [extractStep, hc, hl]
          · right
            left
            refine ⟨t, m, u, k, hc, ?_⟩
            simp [extractStep, hc, hl, hcond]

/-- Generalised form of claim C1 over an arbitrary initial client
state: every rapid-reconnection event in the output is immediately
preceded by its triggering CONNECT (same client, same time, fixed
message), and the state recorded for the client just before that
CONNECT (events before it folded over the initial dictionary) is a
DISCONNECT. -/
lemma extractGo_rapid (logs : List LogEntry) :
    ∀ st pre ev post, extractGo st logs = pre ++ ev :: post →
      ev.evento = EventKind.RAPID_RECONNECT →
      ∃ pre1 cev, pre = pre1 ++ [cev] ∧ cev.evento = EventKind.CONNECT ∧
        cev.cliente = ev.cliente ∧ cev.hora = ev.hora ∧ ev.mensaje = rapidMessage ∧
        ∃ t0, lastStateFrom (lookupStatus st ev.cliente) ev.cliente pre1 =
          some (EventKind.DISCONNECT, t0) := by
  induction logs with
  | nil =>
    intro st pre ev post h hr
    cases pre <;> simp [extractGo] at h
  | cons e rest ih =>
    intro st pre ev post h hr
    rw [extractGo_cons] at h
    rcases extractStep_shape st e with h0 | ⟨t, m, u, k, hc, hstep⟩ | ⟨t, m, u, t2, hc, hl, hstep⟩
    · rw [h0] at h
      simp only [List.nil_append] at h
      exact ih st pre ev post h hr
    · rw [hstep] at h
      simp only [List.cons_append, List.nil_append] at h
      cases pre with
      | nil =>
        simp only [List.nil_append] at h
        have hev : ev = ⟨t, u, k, m⟩ := (List.cons.injEq _ _ _ _ ▸ h).1.symm
        rw [hev] at hr
        exact absurd hr (classifyTag_not_rapid m u k hc)
      | cons q pre2 =>
        have hq : q = ⟨t, u, k, m⟩ := ((List.cons.injEq _ _ _ _ ▸ h).1).symm
        have htail : extractGo (updateStatus st u (k, t)) rest = pre2 ++ ev :: post :=
          (List.cons.injEq _ _ _ _ ▸ h).2
        obtain ⟨pre1, cev, hpre2, hcev, hcl, hhora, hmsg, t0, hlast⟩ :=
          ih (updateStatus st u (k, t)) pre2 ev post htail hr
        refine ⟨q :: pre1, cev, ?_, hcev, hcl, hhora, hmsg, t0, ?_⟩
        · rw [hpre2, List.cons_append]
        · have hk := classifyTag_not_rapid m u k hc
          unfold lastStateFrom
          rw [List.foldl_cons, hq, stepState_update st u ev.cliente k t m hk]
          exact hlast
    · rw [hstep] at h
      simp only [List.cons_append, List.nil_append] at h
      cases pre with
      | nil =>
        simp only [List.nil_append] at h
        have hev : ev = ⟨t, u, EventKind.CONNECT, m⟩ := (List.cons.injEq _ _ _ _ ▸ h).1.symm
        rw [hev] at hr
        exact absurd hr (fun hcon => EventKind.noConfusion hcon)
      | cons q pre2 =>
        have hq : q = ⟨t, u, EventKind.CONNECT, m⟩ := ((List.cons.injEq _ _ _ _ ▸ h).1).symm
        have htail : (⟨t, u, EventKind.RAPID_RECONNECT, rapidMessage⟩ : ConnectionEvent) ::
            extractGo (updateStatus st u (EventKind.CONNECT, t)) rest = pre2 ++ ev :: post :=
          (List.cons.injEq _ _ _ _ ▸ h).2
        cases pre2 with
        | nil =>
          simp only [List.nil_append] at htail
          have hev : ev = ⟨t, u, EventKind.RAPID_RECONNECT, rapidMessage⟩ :=
            (List.cons.injEq _ _ _ _ ▸ htail).1.symm
          refine ⟨[], q, by rw [List.nil_append], ?_, ?_, ?_, ?_, t2, ?_⟩
          · rw [hq]
          · rw [hq, hev]
          · rw [hq, hev]
          · rw [hev]
          · show lookupStatus st ev.cliente = some (EventKind.DISCONNECT, t2)
            rw [hev]
            exact hl
        | cons q2 pre3 =>
          have hq2 : q2 = ⟨t, u, EventKind.RAPID_RECONNECT, rapidMessage⟩ :=
            ((List.cons.injEq _ _ _ _ ▸ htail).1).symm
          have htail2 : extractGo (updateStatus st u (EventKind.CONNECT, t)) rest =
              pre3 ++ ev :: post := (List.cons.injEq _ _ _ _ ▸ htail).2
          obtain ⟨pre1, cev, hpre3, hcev, hcl, hhora, hmsg, t0, hlast⟩ :=
            ih (updateStatus st u (EventKind.CONNECT, t)) pre3 ev post htail2 hr
          refine ⟨q :: q2 :: pre1, cev, ?_, hcev, hcl, hhora, hmsg, t0, ?_⟩
          · rw [hpre3, List.cons_append, List.cons_append]
          · unfold lastStateFrom
            rw [List.foldl_cons, List.foldl_cons, hq, hq2,
              stepState_update st u ev.cliente EventKind.CONNECT t m
                (fun hcon => EventKind.noConfusion hcon),
              stepState_rapid]
            exact hlast

/-- Claim C1: in the output of the tag pass, every RAPID_RECONNECT
event sits immediately after its triggering CONNECT event, for the same
client, carrying the same time and the fixed descriptive message; and
the client's most recently recorded prior tag-path event (CONNECT or
DISCONNECT events before the trigger, rapid markers not being recorded)
is a DISCONNECT. -/
theorem c1_rapid_reconnect_structure (logs : List LogEntry)
    (pre : List ConnectionEvent) (ev : ConnectionEvent) (post : List ConnectionEvent)
    (h : extract_pppoe_connection_events logs = pre ++ ev :: post)
    (hr : ev.evento = EventKind.RAPID_RECONNECT) :
    ∃ pre1 cev, pre = pre1 ++ [cev] ∧ cev.evento = EventKind.CONNECT ∧
      cev.cliente = ev.cliente ∧ cev.hora = ev.hora ∧ ev.mensaje = rapidMessage ∧
      ∃ t0, lastStateFrom none ev.cliente pre1 = some (EventKind.DISCONNECT, t0) :=
  extractGo_rapid logs [] pre ev post h hr

/-- Witness for C1 at the concrete carol logs, whose output ends with a
rapid-reconnection event. -/
theorem c1_rapid_reconnect_structure_witness :
    ∃ pre1 cev,
      ([⟨String.toList "10:00", String.toList "carol", EventKind.DISCONNECT, msgCarolTerm⟩,
        ⟨String.toList "10:01", String.toList "carol", EventKind.CONNECT, msgCarolConn⟩] :
        List ConnectionEvent) = pre1 ++ [cev] ∧
      cev.evento = EventKind.CONNECT ∧
      cev.cliente = String.toList "carol" ∧
      cev.hora = String.toList "10:01" ∧
      rapidMessage = rapidMessage ∧
      ∃ t0, lastStateFrom none (String.toList "carol") pre1 =
        some (EventKind.DISCONNECT, t0) :=
  c1_rapid_reconnect_structure [entCarolTerm, entCarolConn]
    [⟨String.toList "10:00", String.toList "carol", EventKind.DISCONNECT, msgCarolTerm⟩,
     ⟨String.toList "10:01", String.toList "carol", EventKind.CONNECT, msgCarolConn⟩]
    ⟨String.toList "10:01", String.toList "carol", EventKind.RAPID_RECONNECT, rapidMessage⟩
    [] (by decide) rfl

/-- Dictionary lookups agree modulo stored times when the states agree
modulo stored times. -/
lemma lookup_kind_mod : ∀ (st st2 : ClientStatus), stateKinds st = stateKinds st2 →
    ∀ u, (lookupStatus st u).map Prod.fst = (lookupStatus st2 u).map Prod.fst := by
  intro st
  induction st with
  | nil =>
    intro st2 h u
    cases st2 with
    | nil => rfl
    | cons q t2 => simp [stateKinds] at h
  | cons p t ih =>
    intro st2 h u
    cases st2 with
    | nil => simp [stateKinds] at h
    | cons q t2 =>
      simp only [stateKinds, List.map_cons, List.cons.injEq, Prod.mk.injEq] at h
      obtain ⟨⟨hk1, hk2⟩, hrest⟩ := h
      by_cases hu : p.1 = u
      · have hq : q.1 = u := hk1 ▸ hu
        simp [lookupStatus, hu, hq, hk2]
      · have hq : ¬q.1 = u := fun hh => hu (hk1 ▸ hh)
        simp only [lookupStatus, if_neg hu, if_neg hq]
        exact ih t2 (by simpa [stateKinds] using hrest) u

/-- Dictionary assignment preserves agreement modulo stored times. -/
lemma update_kind_mod : ∀ (st st2 : ClientStatus), stateKinds st = stateKinds st2 →
    ∀ (u : Str) (k : EventKind) (t1 t2 : Str),
      stateKinds (updateStatus st u (k, t1)) = stateKinds (updateStatus st2 u (k, t2)) := by
  intro st
  induction st with
  | nil =>
    intro st2 h u k t1 t2
    cases st2 with
    | nil => rfl
    | cons q tl => simp [stateKinds] at h
  | cons p tl ih =>
    intro st2 h u k t1 t2
    cases st2 with
    | nil => simp [stateKinds] at h
    | cons q tl2 =>
      simp only [stateKinds, List.map_cons, List.cons.injEq, Prod.mk.injEq] at h
      obtain ⟨⟨hk1, hk2⟩, hrest⟩ := h
      by_cases hu : p.1 = u
      · have hq : q.1 = u := hk1 ▸ hu
        simp only [updateStatus, if_pos hu, if_pos hq, stateKinds, List.map_cons,
          List.cons.injEq, Prod.mk.injEq]
        simpa using hrest
      · have hq : ¬q.1 = u := fun hh => hu (hk1 ▸ hh)
        simp only [updateStatus, if_neg hu, if_neg hq, stateKinds, List.map_cons,
          List.cons.injEq, Prod.mk.injEq]
        refine ⟨⟨hk1, hk2⟩, ?_⟩
        have := ih tl2 (by simpa [stateKinds] using hrest) u k t1 t2
        simpa [stateKinds] using this

/-- One loop iteration of the tag pass is insensitive to the time
values of the entry and of the stored state. -/
lemma extractStep_mod (st st2 : ClientStatus) (hk : stateKinds st = stateKinds st2)
    (e f : LogEntry) (hm : e.message = f.message) (hts : e.time.isSome = f.time.isSome) :
    stateKinds (extractStep st e).1 = stateKinds (extractStep st2 f).1 ∧
    ((extractStep st e).2).map eraseTime = ((extractStep st2 f).2).map eraseTime := by
  rcases e with ⟨et, em, etop⟩
  rcases f with ⟨ft, fm, ftop⟩
  simp only at hm hts
  subst hm
  rcases em with _ | m
  · constructor
    · rcases et with _ | t1 <;> rcases ft with _ | t2 <;> exact hk
    · rcases et with _ | t1 <;> rcases ft with _ | t2 <;> rfl
  · rcases et with _ | t1
    · rcases ft with _ | t2
      · exact ⟨hk, rfl⟩
      · simp at hts
    · rcases ft with _ | t2
      · simp at hts
      · rcases hc : classifyTag m with _ | p
        · simp only [extractStep, hc]
          exact ⟨hk, by simp⟩
        · rcases p with ⟨u, k⟩
          have hlk := lookup_kind_mod st st2 hk u
          rcases hl : lookupStatus st u with _ | prev
          · have hl2 : lookupStatus st2 u = none := by
              rcases hx : lookupStatus st2 u with _ | prev2
              · rfl
              · rw [hl, hx] at hlk
                exact Option.noConfusion hlk
            simp only [extractStep, hc, hl, hl2]
            exact ⟨update_kind_mod st st2 hk u k t1 t2, rfl⟩
          · rcases hx : lookupStatus st2 u with _ | prev2
            · rw [hl, hx] at hlk
              exact Option.noConfusion hlk
            · rw [hl, hx] at hlk
              simp only [Option.map_some'] at hlk
              injection hlk with hfst
              simp only [extractStep, hc, hl, hx]
              by_cases hcond : k = EventKind.CONNECT ∧ prev.1 = EventKind.DISCONNECT
              · have hcond2 : k = EventKind.CONNECT ∧ prev2.1 = EventKind.DISCONNECT :=
                  ⟨hcond.1, by rw [← hfst]; exact hcond.2⟩
                rw [if_pos hcond, if_pos hcond2]
                exact ⟨update_kind_mod st st2 hk u k t1 t2, rfl⟩
              · have hcond2 : ¬(k = EventKind.CONNECT ∧ prev2.1 = EventKind.DISCONNECT) :=
                  fun hx2 => hcond ⟨hx2.1, by rw [hfst]; exact hx2.2⟩
                rw [if_neg hcond, if_neg hcond2]
                exact ⟨update_kind_mod st st2 hk u k t1 t2, rfl⟩

/-- The whole tag pass is insensitive to time values, for any pair of
initial states agreeing modulo stored times. -/
lemma extractGo_mod : ∀ (l l2 : List LogEntry) (st st2 : ClientStatus),
    sameModuloTimes l l2 = true → stateKinds st = stateKinds st2 →
    (extractGo st l).map eraseTime = (extractGo st2 l2).map eraseTime := by
  intro l
  induction l with
  | nil =>
    intro l2 st st2 h hk
    cases l2 with
    | nil => rfl
    | cons f t2 => simp [sameModuloTimes] at h
  | cons e t ih =>
    intro l2 st st2 h hk
    cases l2 with
    | nil => simp [sameModuloTimes] at h
    | cons f t2 =>
      simp only [sameModuloTimes, Bool.and_eq_true, decide_eq_true_eq] at h
      obtain ⟨⟨⟨hm, htop⟩, hts⟩, hrest⟩ := h
      rw [extractGo_cons, extractGo_cons, List.map_append, List.map_append]
      have hstep := extractStep_mod st st2 hk e f hm hts
      rw [hstep.2, ih t2 (extractStep st e).1 (extractStep st2 f).1 hrest hstep.1]

/-- Claim C9: for two input sequences identical except for their time
fields, the tag pass emits the same events in the same order with the
same clients, kinds and messages. -/
theorem c9_time_invariance (l l2 : List LogEntry) (h : sameModuloTimes l l2 = true) :
    (extract_pppoe_connection_events l).map eraseTime =
      (extract_pppoe_connection_events l2).map eraseTime :=
  extractGo_mod l l2 [] [] h rfl

/-- Witness for C9: the carol sequence with shifted times produces the
same classified events. -/
theorem c9_time_invariance_witness :
    sameModuloTimes [entCarolTerm, entCarolConn] [entCarolTermLate, entCarolConnLate] = true ∧
    (extract_pppoe_connection_events [entCarolTerm, entCarolConn]).map eraseTime =
      (extract_pppoe_connection_events [entCarolTermLate, entCarolConnLate]).map eraseTime :=
  ⟨by decide, c9_time_invariance [entCarolTerm, entCarolConn]
    [entCarolTermLate, entCarolConnLate] (by decide)⟩

/-- Every string begins with the empty string. -/
lemma strStarts_nil_right (s : Str) : strStarts s [] = true := by
  cases s <;> rfl

/-- A case-insensitive prefix is a prefix of the lower-cased strings. -/
lemma startsCI_lowerStr : ∀ (s p : Str), startsCI s p = true →
    strStarts (lowerStr s) (lowerStr p) = true := by
  intro s
  induction s with
  | nil =>
    intro p h
    cases p with
    | nil => rfl
    | cons d p => simp [startsCI] at h
  | cons c s ih =>
    intro p h
    cases p with
    | nil => exact strStarts_nil_right _
    | cons d p =>
      simp only [startsCI] at h
      by_cases hc : toLowerAscii c = toLowerAscii d
      · rw [if_pos hc] at h
        show strStarts (toLowerAscii c :: lowerStr s) (toLowerAscii d :: lowerStr p) = true
        simp only [strStarts]
        rw [if_pos hc]
        exact ih p h
      · rw [if_neg hc] at h
        exact absurd h (by simp)

/-- A case-insensitive substring is a substring of the lower-cased
strings. -/
lemma containsCI_lowerStr : ∀ (s p : Str), containsCI s p = true →
    strContains (lowerStr s) (lowerStr p) = true := by
  intro s
  induction s with
  | nil =>
    intro p h
    cases p with
    | nil => rfl
    | cons d p => simp [containsCI, startsCI] at h
  | cons c s ih =>
    intro p h
    simp only [containsCI, Bool.or_eq_true] at h
    show strContains (toLowerAscii c :: lowerStr s) (lowerStr p) = true
    simp only [strContains, Bool.or_eq_true]
    rcases h with h | h
    · exact Or.inl (startsCI_lowerStr (c :: s) p h)
    · exact Or.inr (ih p h)

/-- A successful greedy capture means the closing literal occurs in the
searched suffix. -/
lemma greedyCapCI_contains (B : Str) : ∀ (s u : Str), greedyCapCI B s = some u →
    containsCI s B = true := by
  intro s
  induction s with
  | nil =>
    intro u h
    simp only [greedyCapCI] at h
    by_cases hb : startsCI [] B = true
    · simpa [containsCI] using hb
    · rw [if_neg hb] at h
      exact Option.noConfusion h
  | cons c s ih =>
    intro u h
    simp only [greedyCapCI] at h
    by_cases hn : c = '\n'
    · rw [if_pos hn] at h
      by_cases hb : startsCI (c :: s) B = true
      · simp [containsCI, hb]
      · rw [if_neg hb] at h
        exact Option.noConfusion h
    · rw [if_neg hn] at h
      rcases hg : greedyCapCI B s with _ | u2
      · rw [hg] at h
        by_cases hb : startsCI (c :: s) B = true
        · simp [containsCI, hb]
        · simp only [if_neg hb] at h
          exact Option.noConfusion h
      · simp [containsCI, ih u2 hg]

/-- A substring of a dropped suffix is a substring of the whole. -/
lemma containsCI_drop : ∀ (n : Nat) (s p : Str), containsCI (List.drop n s) p = true →
    containsCI s p = true := by
  intro n
  induction n with
  | zero =>
    intro s p h
    simpa using h
  | succ n ih =>
    intro s p h
    cases s with
    | nil => simpa using h
    | cons c s =>
      simp only [List.drop_succ_cons] at h
      simp [containsCI, ih s p h]

/-- A successful search means the opening literal occurs in the
message (case-insensitively). -/
lemma searchCI_containsA (A B : Str) : ∀ (m u : Str), searchCI A B m = some u →
    containsCI m A = true := by
  intro m
  induction m with
  | nil =>
    intro u h
    simp only [searchCI] at h
    by_cases ha : startsCI [] A = true
    · simpa [containsCI] using ha
    · rw [if_neg ha] at h
      exact Option.noConfusion h
  | cons c s ih =>
    intro u h
    simp only [searchCI] at h
    by_cases ha : startsCI (c :: s) A = true
    · simp [containsCI, ha]
    · rw [if_neg ha] at h
      simp [containsCI, ih u h]

/-- A successful search means the closing literal occurs in the
message (case-insensitively). -/
lemma searchCI_containsB (A B : Str) : ∀ (m u : Str), searchCI A B m = some u →
    containsCI m B = true := by
  intro m
  induction m with
  | nil =>
    intro u h
    simp only [searchCI] at h
    by_cases ha : startsCI [] A = true
    · rw [if_pos ha] at h
      exact containsCI_drop A.length [] B (by simpa using greedyCapCI_contains B [] u h)
    · rw [if_neg ha] at h
      exact Option.noConfusion h
  | cons c s ih =>
    intro u h
    simp only [searchCI] at h
    by_cases ha : startsCI (c :: s) A = true
    · rw [if_pos ha] at h
      rcases hg : greedyCapCI B (List.drop A.length (c :: s)) with _ | u2
      · simp only [hg] at h
        simp [containsCI, ih u h]
      · exact containsCI_drop A.length (c :: s) B (greedyCapCI_contains B _ u2 hg)
    · rw [if_neg ha] at h
      simp [containsCI, ih u h]

/-- Prefix order is transitive. -/
lemma strStarts_trans : ∀ (s a b : Str), strStarts s a = true → strStarts a b = true →
    strStarts s b = true := by
  intro s
  induction s with
  | nil =>
    intro a b h1 h2
    cases a with
    | nil => exact h2
    | cons e a2 => simp [strStarts] at h1
  | cons c s ih =>
    intro a b h1 h2
    cases b with
    | nil => exact strStarts_nil_right _
    | cons d b2 =>
      cases a with
      | nil => simp [strStarts] at h2
      | cons e a2 =>
        simp only [strStarts] at h1 h2
        by_cases hce : c = e
        · rw [if_pos hce] at h1
          by_cases hed : e = d
          · rw [if_pos hed] at h2
            show strStarts (c :: s) (d :: b2) = true
            simp only [strStarts]
            rw [if_pos (hce.trans hed)]
            exact ih a2 b2 h1 h2
          · rw [if_neg hed] at h2
            exact absurd h2 (by simp)
        · rw [if_neg hce] at h1
          exact absurd h1 (by simp)

/-- A prefix is in particular a substring. -/
lemma strStarts_strContains (s b : Str) (h : strStarts s b = true) :
    strContains s b = true := by
  cases s with
  | nil =>
    cases b with
    | nil => rfl
    | cons d b2 => simp [strStarts] at h
  | cons c t => simp [strContains, h]

/-- A substring of a prefix is a substring of the whole. -/
lemma strStarts_contains_right : ∀ (a s b : Str), strStarts s a = true →
    strContains a b = true → strContains s b = true := by
  intro a
  induction a with
  | nil =>
    intro s b h1 h2
    cases b with
    | nil =>
      cases s with
      | nil => rfl
      | cons c t => simp [strContains, strStarts_nil_right]
    | cons d b2 => simp [strContains, strStarts] at h2
  | cons e a2 ih =>
    intro s b h1 h2
    simp only [strContains, Bool.or_eq_true] at h2
    rcases h2 with h2 | h2
    · exact strStarts_strContains s b (strStarts_trans s (e :: a2) b h1 h2)
    · cases s with
      | nil => simp [strStarts] at h1
      | cons c s2 =>
        simp only [strStarts] at h1
        by_cases hce : c = e
        · rw [if_pos hce] at h1
          simp only [strContains, Bool.or_eq_true]
          exact Or.inr (ih s2 b h1 h2)
        · rw [if_neg hce] at h1
          exact absurd h1 (by simp)

/-- Substring containment is transitive. -/
lemma strContains_trans : ∀ (s a b : Str), strContains s a = true →
    strContains a b = true → strContains s b = true := by
  intro s
  induction s with
  | nil =>
    intro a b h1 h2
    cases a with
    | nil => exact h2
    | cons e a2 => simp [strContains, strStarts] at h1
  | cons c s2 ih =>
    intro a b h1 h2
    simp only [strContains, Bool.or_eq_true] at h1 ⊢
    rcases h1 with h1 | h1
    · cases a with
      | nil =>
        cases b with
        | nil => exact Or.inl (strStarts_nil_right _)
        | cons d b2 => simp [strContains, strStarts] at h2
      | cons e a2 =>
        have := strStarts_contains_right (e :: a2) (c :: s2) b h1 h2
        simpa [strContains] using this
    · exact Or.inr (ih a b h1 h2)

/-- A successful `tryPatterns` exhibits a matching pattern in the list. -/
lemma tryPatterns_mem : ∀ (ps : List (Str × Str)) (m name : Str),
    tryPatterns ps m = some name → ∃ p, p ∈ ps ∧ ∃ u, searchCI p.1 p.2 m = some u := by
  intro ps
  induction ps with
  | nil =>
    intro m name h
    exact Option.noConfusion h
  | cons p rest ih =>
    intro m name h
    rcases hs : searchCI p.1 p.2 m with _ | u
    · simp only [tryPatterns, hs] at h
      obtain ⟨q, hq, hu⟩ := ih m name h
      exact ⟨q, List.mem_cons_of_mem p hq, hu⟩
    · exact ⟨p, List.mem_cons_self p rest, u, hs⟩

/-- A keyword of the prefilter found in the lower-cased message makes
the entry PPPoE-relevant, whatever its topics. -/
lemma isPppoeLog_of_kw (m topics kw : Str) (hmem : kw ∈ pppTerms)
    (h : strContains (lowerStr m) kw = true) : isPppoeLog m topics = true := by
  unfold isPppoeLog
  by_cases ht : (strContains topics (String.toList "pppoe") ||
      strContains topics (String.toList "ppp")) = true
  · rw [if_pos ht]
  · rw [if_neg ht]
    exact List.any_eq_true.mpr ⟨kw, hmem, h⟩

/-- From a successful search, a keyword contained in the lower-cased
opening literal is contained in the lower-cased message. -/
lemma kw_of_searchA (m A B u kw : Str) (h : searchCI A B m = some u)
    (hkw : strContains (lowerStr A) kw = true) : strContains (lowerStr m) kw = true :=
  strContains_trans (lowerStr m) (lowerStr A) kw
    (containsCI_lowerStr m A (searchCI_containsA A B m u h)) hkw

/-- From a successful search, a keyword contained in the lower-cased
closing literal is contained in the lower-cased message. -/
lemma kw_of_searchB (m A B u kw : Str) (h : searchCI A B m = some u)
    (hkw : strContains (lowerStr B) kw = true) : strContains (lowerStr m) kw = true :=
  strContains_trans (lowerStr m) (lowerStr B) kw
    (containsCI_lowerStr m B (searchCI_containsB A B m u h)) hkw

/-- Any message matched by one of the five legacy patterns passes the
PPPoE-relevance prefilter, whatever the topics. -/
lemma relevant_of_tryPatterns (m topics name : Str)
    (h : tryPatterns pppoe_patterns m = some name) : isPppoeLog m topics = true := by
  obtain ⟨p, hp, u, hu⟩ := tryPatterns_mem pppoe_patterns m name h
  simp only [pppoe_patterns, List.mem_cons, List.not_mem_nil, or_false] at hp
  rcases hp with hp | hp | hp | hp | hp
  all_goals subst hp
  · exact isPppoeLog_of_kw m topics (String.toList "pppoe") (by decide)
      (kw_of_searchA m _ _ u (String.toList "pppoe") hu (by decide))
  · exact isPppoeLog_of_kw m topics (String.toList "pppoe") (by decide)
      (kw_of_searchA m _ _ u (String.toList "pppoe") hu (by decide))
  · exact isPppoeLog_of_kw m topics (String.toList "disconnected") (by decide)
      (kw_of_searchB m _ _ u (String.toList "disconnected") hu (by decide))
  · exact isPppoeLog_of_kw m topics (String.toList "pppoe") (by decide)
      (kw_of_searchA m _ _ u (String.toList "pppoe") hu (by decide))
  · exact isPppoeLog_of_kw m topics (String.toList "ppp") (by decide)
      (kw_of_searchA m _ _ u (String.toList "ppp") hu (by decide))

/-- Claim C10: the PPPoE-relevance prefilter is redundant for record
production: the legacy pass with the prefilter removed produces the
same records, entry by entry and over every input list. -/
theorem c10_prefilter_redundant :
    (∀ e, filterStep e = filterStepUnfiltered e) ∧
    ∀ logs, filter_pppoe_disconnections logs = filter_pppoe_disconnections_unfiltered logs := by
  have hstep : ∀ e, filterStep e = filterStepUnfiltered e := by
    intro e
    rcases e with ⟨et, em, etop⟩
    rcases et with _ | t
    · rcases em with _ | m <;> rfl
    · rcases em with _ | m
      · rfl
      · simp only [filterStep, filterStepUnfiltered]
        rcases h2 : tryPatterns pppoe_patterns m with _ | name
        · by_cases h1 : isPppoeLog m (Option.getD etop []) = true <;> simp [h1, h2]
        · have h1 := relevant_of_tryPatterns m (Option.getD etop []) name h2
          simp [h1, h2]
  refine ⟨hstep, ?_⟩
  intro logs
  unfold filter_pppoe_disconnections filter_pppoe_disconnections_unfiltered
  rw [funext hstep]

end Tarea
